import Mathlib

/-!
# Verification of the AIONUS RAG chunking / retrieval core

Shallow embedding of the repository's RAG pipeline:

* `src/unnamed/part_001` (document processor): `splitIntoChunks` (text
  normalisation + sliding-window chunker), `generateEmbeddings` (sequential
  per-chunk embedding loop), `saveChunksToSupabase`, `processDocument`.
* `src/unnamed/part_002` (rag pipeline): `chunkDocument` (paragraph
  aggregating chunker), `storeVectors`.
* `src/unnamed/part_003` (gemini client): `generateEmbedding`,
  `generateEmbeddings` (parallel batch).
* `src/lib/rag.js`: `generateQueryEmbedding`, `retrieveContext`.
* `src/supabase/migrations/001_rag_setup.sql`: `match_documents`.

Strings are modelled as `List Char` (with `String` wrappers); JavaScript
numbers used as indices/sizes are modelled as `Int` where they can go
negative (`String.lastIndexOf` returning `-1`, `slice` arguments), and as
`Nat` where the source only ever holds non-negative values.  Outcomes of
external calls (the Gemini fetch, the Supabase RPC / table reads) are passed
in as explicit `Except`/`Option` parameters, so each orchestration function
becomes a pure function of its inputs and of the outcomes of the external
calls it makes.
-/

/-! ## JavaScript string primitives -/

/-- Characters matched by the JavaScript regexp class `\s` (the subset that
occurs in this code base: space, tab, newline, carriage return, vertical tab,
form feed).  `String.prototype.trim` strips the same class. -/
def isJsWs (c : Char) : Bool :=
  c = ' ' ∨ c = '\t' ∨ c = '\n' ∨ c = '\r' ∨ c = '\x0b' ∨ c = '\x0c'

/-- `replace(/\s+/g, ' ')`: every maximal run of whitespace characters is
replaced by a single space.  The `Bool` flag records whether the previous
character belonged to a whitespace run. -/
def collapseWsAux : Bool → List Char → List Char
  | _, [] => []
  | inRun, c :: cs =>
    if isJsWs c then
      if inRun then collapseWsAux true cs
      else ' ' :: collapseWsAux true cs
    else c :: collapseWsAux false cs

def collapseWs (l : List Char) : List Char := collapseWsAux false l

/-- `replace(/\n+/g, '\n')`: every maximal run of newline characters is
replaced by a single newline. -/
def collapseNlAux : Bool → List Char → List Char
  | _, [] => []
  | inRun, c :: cs =>
    if c = '\n' then
      if inRun then collapseNlAux true cs
      else '\n' :: collapseNlAux true cs
    else c :: collapseNlAux false cs

def collapseNl (l : List Char) : List Char := collapseNlAux false l

/-- `String.prototype.trim()`: strip leading and trailing whitespace. -/
def jsTrim (l : List Char) : List Char :=
  ((l.dropWhile (isJsWs ·)).reverse.dropWhile (isJsWs ·)).reverse

/-- The text-cleaning step at the top of `splitIntoChunks`
(src/unnamed/part_001 lines 82-85):
`text.replace(/\s+/g, ' ').replace(/\n+/g, '\n').trim()`. -/
def normJs (l : List Char) : List Char := jsTrim (collapseNl (collapseWs l))

/-- `normJs` on `String`. -/
def normJsStr (s : String) : String := String.mk (normJs s.toList)

/-! ## More JavaScript primitives: `lastIndexOf`, `slice`, `indexOf`, `split` -/

/-- Largest index `i ≤ bound` with `t.get? i = some ch`, else `-1`
(the ascending fold keeps the last, i.e. largest, hit). -/
def lastIndexOfAux (t : List Char) (ch : Char) (bound : Nat) : Int :=
  (List.range (bound + 1)).foldl
    (fun acc i => if t.get? i = some ch then (i : Int) else acc) (-1)

/-- `String.prototype.lastIndexOf(ch, pos)` for a single-character needle:
the largest index `i ≤ min(pos, len-1)` holding `ch`, or `-1`; a negative
`pos` is clamped to `0`. -/
def jsLastIndexOf (t : List Char) (ch : Char) (pos : Int) : Int :=
  if t.length = 0 then -1
  else
    let bound : Nat := if pos < 0 then 0 else min pos.toNat (t.length - 1)
    lastIndexOfAux t ch bound

/-- `String.prototype.slice(a, b)`: negative indices count from the end,
then both are clamped to `[0, len]` and the (possibly empty) segment
between them is returned. -/
def jsSlice (t : List Char) (a b : Int) : List Char :=
  let len : Int := t.length
  let resolve : Int → Nat := fun i =>
    if i < 0 then (len + i).toNat.min t.length else i.toNat.min t.length
  (t.take (resolve b)).drop (resolve a)

/-- `String.prototype.indexOf(needle)`: index of the first occurrence of
`needle` in the tail starting at `i`, else `-1`. -/
def jsIndexOfAux (needle : List Char) : Nat → List Char → Int
  | i, [] => if needle.isPrefixOf ([] : List Char) then (i : Int) else -1
  | i, c :: cs =>
    if needle.isPrefixOf (c :: cs) then (i : Int)
    else jsIndexOfAux needle (i + 1) cs

def jsIndexOf (hay needle : List Char) : Int := jsIndexOfAux needle 0 hay

/-- `String.prototype.split(sep)` for a non-empty string separator, with
fuel (`hay.length + 1` suffices); `cur` is the current field, reversed. -/
def splitSepAux (sep : List Char) : Nat → List Char → List Char → List (List Char)
  | 0, rest, cur => [cur.reverse ++ rest]
  | fuel + 1, rest, cur =>
    match rest with
    | [] => [cur.reverse]
    | c :: cs =>
      if sep.isPrefixOf (c :: cs) then
        cur.reverse :: splitSepAux sep fuel ((c :: cs).drop sep.length) []
      else splitSepAux sep fuel cs (c :: cur)

def jsSplit (sep t : List Char) : List (List Char) :=
  splitSepAux sep (t.length + 1) t []

/-! ## `splitIntoChunks` (src/unnamed/part_001 lines 80-117)

The `while (start < cleanText.length)` loop is embedded with explicit fuel:
`none` means the loop did not finish within the given fuel.  `start` and the
sizes are `Int` because `start = end - overlap` can go negative in
JavaScript.  The boundary test `breakPoint > start + chunkSize / 2` uses
JavaScript float division; over integers it is equivalent to
`2 * breakPoint > 2 * start + chunkSize`, which is how it is written here. -/

def chunkLoop (t : List Char) (cs ov : Int) :
    Nat → Int → List (List Char) → Option (List (List Char))
  | 0, _, _ => none
  | fuel + 1, start, acc =>
    if start < (t.length : Int) then
      let end0 := start + cs
      let end1 :=
        if end0 < (t.length : Int) then
          let lastPeriod := jsLastIndexOf t '.' end0
          let lastNewline := jsLastIndexOf t '\n' end0
          let breakPoint := max lastPeriod lastNewline
          if 2 * breakPoint > 2 * start + cs then breakPoint + 1 else end0
        else end0
      let chunk := jsTrim (jsSlice t start end1)
      let acc' := if chunk.length > 0 then acc ++ [chunk] else acc
      chunkLoop t cs ov fuel (end1 - ov) acc'
    else some acc

/-- `splitIntoChunks(text, chunkSize, overlap)`: clean the text, return it
whole when it fits in one chunk, otherwise run the sliding-window loop. -/
def splitIntoChunksFuel (fuel : Nat) (text : String) (cs ov : Int) :
    Option (List String) :=
  let t := normJs text.toList
  if (t.length : Int) ≤ cs then some [String.mk t]
  else (chunkLoop t cs ov fuel 0 []).map (fun l => l.map String.mk)

/-! ## `chunkDocument` (src/unnamed/part_002 lines 22-66) -/

/-- The chunk drafts produced by `chunkDocument`: `charStart`/`charEnd` are
`Int` because `text.indexOf(currentChunk)` returns `-1` when the buffer does
not occur in the text. -/
structure ChunkDraft where
  id : Nat
  content : String
  charStart : Int
  charEnd : Int
deriving DecidableEq, Repr

/-- `Array.prototype.slice(-k)`: the last `k` elements; `k = 0` gives the
whole array because `-0 === 0` in JavaScript. -/
def jsSliceNeg {α : Type} (l : List α) (k : Nat) : List α :=
  if k = 0 then l else l.drop (l.length - min k l.length)

/-- `Array.prototype.join(sep)` over lists of characters. -/
def joinSep (sep : List Char) : List (List Char) → List Char
  | [] => []
  | [x] => x
  | x :: y :: ys => x ++ sep ++ joinSep sep (y :: ys)

/-- The chunk record pushed by `chunkDocument`: content is the trimmed
buffer, the offsets come from a first-occurrence `indexOf` on the raw text
with the untrimmed buffer. -/
def mkDraft (text cur : List Char) (idx : Nat) : ChunkDraft :=
  ⟨idx, String.mk (jsTrim cur), jsIndexOf text cur, jsIndexOf text cur + cur.length⟩

/-- The paragraph-accumulation loop of `chunkDocument`: flush the buffer when
the next paragraph would overflow `chunkSize`, seed the new buffer with the
last `⌊overlap / 5⌋` words of the flushed one, and flush whatever remains at
the end. -/
def chunkDocLoop (text : List Char) (chunkSize overlap : Nat) (sep : List Char) :
    List (List Char) → List Char → Nat → List ChunkDraft → List ChunkDraft
  | [], cur, idx, acc =>
    if jsTrim cur ≠ [] then acc ++ [mkDraft text cur idx] else acc
  | p :: ps, cur, idx, acc =>
    if cur.length + p.length > chunkSize ∧ cur.length > 0 then
      let words := jsSplit [' '] cur
      let overlapWords := jsSliceNeg words (overlap / 5)
      let newCur := joinSep [' '] overlapWords ++ [' '] ++ p
      chunkDocLoop text chunkSize overlap sep ps newCur (idx + 1)
        (acc ++ [mkDraft text cur idx])
    else
      chunkDocLoop text chunkSize overlap sep ps
        (if cur.length > 0 then cur ++ sep ++ p else p) idx acc

/-- `chunkDocument(text, {chunkSize, overlap, separator})`: split on the
separator, drop blank paragraphs, then aggregate. -/
def chunkDocument (text : String) (chunkSize overlap : Nat) (sep : String) :
    List ChunkDraft :=
  let t := text.toList
  let paragraphs := (jsSplit sep.toList t).filter (fun p => jsTrim p ≠ [])
  chunkDocLoop t chunkSize overlap sep.toList paragraphs [] 0 []

/-! ## Embedding gateway (src/unnamed/part_003 and src/unnamed/part_001)

The outcome of each outbound `fetch` is a parameter: `Except.error e` for a
non-success response or a thrown error, `Except.ok ov` for a success response
whose body held `ov` in `data.embedding?.values` (`none` when the body was
malformed).  Each model also returns the number of outbound network calls it
made, so that the fail-fast property is visible. -/

/-- A single embedding vector. -/
abbrev Vec := List ℚ

/-- Result of `generateEmbedding` in the gemini client: `{ embedding, error }`. -/
structure EmbResult where
  embedding : Option Vec
  error : Option String
deriving DecidableEq, Repr

/-- `generateEmbedding(text)` (src/unnamed/part_003 lines 130-165): missing
key fails before any fetch; otherwise one fetch whose failure is caught. -/
def generateEmbedding (apiKey : Option String) (fetch : Except String (Option Vec)) :
    EmbResult × Nat :=
  match apiKey with
  | none => (⟨none, some "API key not configured"⟩, 0)
  | some _ =>
    match fetch with
    | .ok ov => (⟨ov, none⟩, 1)
    | .error e => (⟨none, some e⟩, 1)

/-- `generateEmbeddings(texts)` (src/unnamed/part_003 lines 172-191):
`Promise.all` over per-item `generateEmbedding` calls, none of which ever
rejects, then projection to the `embedding` fields with a `null` top-level
error. -/
structure EmbBatchResult where
  embeddings : List (Option Vec)
  error : Option String
deriving DecidableEq, Repr

def generateEmbeddingsBatch (apiKey : Option String)
    (fetches : List (Except String (Option Vec))) : EmbBatchResult :=
  match apiKey with
  | none => ⟨[], some "API key not configured"⟩
  | some k => ⟨fetches.map (fun f => ((generateEmbedding (some k) f).1).embedding), none⟩

/-- What one iteration of the document processor's embedding loop pushes:
the vector from a success response, `null` from a caught failure. -/
def embOutcome : Except String Vec → Option Vec
  | .ok v => some v
  | .error _ => none

/-- The sequential `for` loop of `generateEmbeddings` in the document
processor (src/unnamed/part_001 lines 128-165): push the vector on success,
push `null` on a caught failure. -/
def embLoop : List (Except String Vec) → List (Option Vec) → List (Option Vec)
  | [], acc => acc
  | f :: fs, acc => embLoop fs (acc ++ [embOutcome f])

/-- `generateEmbeddings(chunks)` (src/unnamed/part_001): throws when the key
is missing, otherwise runs the loop. -/
def generateEmbeddingsDoc (apiKey : Option String)
    (fetches : List (Except String Vec)) : Except String (List (Option Vec)) :=
  match apiKey with
  | none => .error "GEMINI_API_KEY is required for embeddings"
  | some _ => .ok (embLoop fetches [])

/-- `generateQueryEmbedding(query)` (src/lib/rag.js lines 35-59): throws
without a fetch when the key is missing; otherwise one fetch, a non-ok
response throwing `Embedding API error`. -/
def generateQueryEmbedding (apiKey : Option String) (fetch : Except String Vec) :
    Except String Vec × Nat :=
  match apiKey with
  | none => (.error "GEMINI_API_KEY is required", 0)
  | some _ =>
    match fetch with
    | .ok v => (.ok v, 1)
    | .error e => (.error ("Embedding API error: " ++ e), 1)

/-! ## Chunk store writes -/

/-- `saveChunksToSupabase` (src/unnamed/part_001 lines 179-214): walk the
chunk/embedding pairs, skip a chunk whose embedding is `null`, try to insert
the rest, count the successful inserts.  `insertOutcomes i` tells whether the
insert attempted for index `i` succeeded. -/
def saveLoop (insertOutcomes : Nat → Bool) :
    List (String × Option Vec) → Nat → List (String × Option Vec) → Nat →
      List (String × Option Vec) × Nat
  | [], _, inserted, saved => (inserted, saved)
  | (c, emb) :: rest, i, inserted, saved =>
    match emb with
    | none => saveLoop insertOutcomes rest (i + 1) inserted saved
    | some _ =>
      if insertOutcomes i then
        saveLoop insertOutcomes rest (i + 1) (inserted ++ [(c, emb)]) (saved + 1)
      else saveLoop insertOutcomes rest (i + 1) inserted saved

/-- Returns the rows actually inserted into `document_chunks` (content with
the embedding value the insert carried) and the `savedCount` reported back. -/
def saveChunksToSupabase (chunks : List String) (embeddings : List (Option Vec))
    (insertOutcomes : Nat → Bool) : List (String × Option Vec) × Nat :=
  saveLoop insertOutcomes (chunks.zip embeddings) 0 [] 0

/-- Result object of `processDocument` (src/unnamed/part_001 lines 228-278). -/
structure ProcessResult where
  success : Bool
  chunks_created : Nat
  total_chunks : Option Nat
  error : Option String
deriving DecidableEq, Repr

/-- `processDocument(buffer, documentId, mimeType)`: `text` is the outcome
of the (external) text extraction; short text is rejected; the text is
chunked (`CHUNK_SIZE = 900`, `CHUNK_OVERLAP = 100`), embedded through the
sequential loop, and saved.  The chunker is fuel-limited in this embedding;
a `none` from it (the JavaScript loop not finishing) is mapped to an error
result so that the model stays total — theorems about terminating runs carry
a hypothesis that the chunker returned `some`. -/
def processDocument (fuel : Nat) (text : String) (apiKey : Option String)
    (fetches : List (Except String Vec)) (insertOutcomes : Nat → Bool) :
    ProcessResult :=
  if text.length < 10 then
    ⟨false, 0, none, some "Document contains no extractable text"⟩
  else
    match splitIntoChunksFuel fuel text 900 100 with
    | none => ⟨false, 0, none, some "chunking did not terminate"⟩
    | some chunks =>
      match generateEmbeddingsDoc apiKey fetches with
      | .error e => ⟨false, 0, none, some e⟩
      | .ok embeddings =>
        ⟨true, (saveChunksToSupabase chunks embeddings insertOutcomes).2,
          some chunks.length, none⟩

/-- A row of the `embeddings` table as built by `storeVectors`
(src/unnamed/part_002 lines 91-136). -/
structure VRow where
  document_id : Nat
  chunk_index : Nat
  content : String
  embedding : Option Vec
  char_start : Int
  char_end : Int
deriving DecidableEq, Repr

/-- Result object of `storeVectors`. -/
structure StoreResult where
  success : Bool
  count : Option Nat
  error : Option String
deriving DecidableEq, Repr

/-- `storeVectors(documentId, chunks)`: embed all chunk contents through the
gemini client batch (whose top-level error is always `null` when configured),
then build one row per chunk with `embedding: embeddings[index]` — `null`
embeddings included — and insert them all.  Returns the rows handed to the
insert and the result object. -/
def storeVectors (configured : Bool) (documentId : Nat) (chunks : List ChunkDraft)
    (apiKey : Option String) (fetches : List (Except String (Option Vec)))
    (insertOk : Bool) : List VRow × StoreResult :=
  if ¬ configured then ([], ⟨false, none, some "Services not configured"⟩)
  else
    let batch := generateEmbeddingsBatch apiKey fetches
    match batch.error with
    | some e => ([], ⟨false, none, some ("Embedding error: " ++ e)⟩)
    | none =>
      let rows := chunks.enum.map (fun p =>
        VRow.mk documentId p.2.id p.2.content (batch.embeddings.getD p.1 none)
          p.2.charStart p.2.charEnd)
      if insertOk then (rows, ⟨true, some rows.length, none⟩)
      else ([], ⟨false, none, some "insert error"⟩)

/-! ## `match_documents` (src/supabase/migrations/001_rag_setup.sql 30-55)

The pgvector cosine-distance operator `<=>` is an operation of the external
store; it enters the model as an abstract function `dist`.  The SQL filters
on `1 - dist > threshold` (rows with a NULL embedding yield NULL and are
filtered out), orders by distance ascending — equivalently similarity
descending — and truncates to `match_count`. -/

structure DbRow where
  id : Nat
  document_id : Nat
  content : String
  embedding : Option Vec
deriving DecidableEq, Repr

structure MatchOut where
  id : Nat
  document_id : Nat
  content : String
  similarity : ℚ
deriving DecidableEq, Repr

/-- Insertion into a list kept sorted by similarity descending. -/
def insertDesc (x : MatchOut) : List MatchOut → List MatchOut
  | [] => [x]
  | y :: ys => if y.similarity ≤ x.similarity then x :: y :: ys else y :: insertDesc x ys

/-- Insertion sort by similarity descending (the `ORDER BY embedding <=>
query_embedding` of the SQL, since `similarity = 1 - distance`). -/
def sortBySimDesc : List MatchOut → List MatchOut
  | [] => []
  | x :: xs => insertDesc x (sortBySimDesc xs)

/-- The `match_documents` RPC. -/
def matchDocuments (dist : Vec → Vec → ℚ) (rows : List DbRow) (q : Vec)
    (threshold : ℚ) (lim : Nat) : List MatchOut :=
  let scored := rows.filterMap (fun r =>
    match r.embedding with
    | none => none
    | some v =>
      if threshold < 1 - dist v q then
        some (MatchOut.mk r.id r.document_id r.content (1 - dist v q))
      else none)
  (sortBySimDesc scored).take lim

/-! ## `retrieveContext` (src/lib/rag.js lines 67-124)

The function is an orchestration of three external calls whose outcomes are
parameters: the query-embedding fetch, the `match_documents` RPC, and the
plain `document_chunks` table read used as fallback.  The table read receives
only the store state and `topK`, never the query, so its outcome is a single
parameter `tableRes`.  The JavaScript function never rethrows: every failure
lands in a `catch` that returns a result object, which is why the model is a
total function into `RagResult`. -/

structure ChunkRowLite where
  content : String
  document_id : Nat
deriving DecidableEq, Repr

structure RagResult where
  context : String
  chunks : Nat
  source : Option String
  error : Option String
deriving DecidableEq, Repr

/-- `'\n\n---\n\n'`-joined context. -/
def joinCtx (l : List String) : String := String.intercalate "\n\n---\n\n" l

def retrieveContext (embedRes : Except String Vec)
    (rpcRes : Except String (List MatchOut))
    (tableRes : Except String (List ChunkRowLite)) : RagResult :=
  match embedRes with
  | .error e => ⟨"", 0, none, some e⟩
  | .ok _ =>
    match rpcRes with
    | .ok data =>
      ⟨joinCtx (data.map (·.content)), data.length, some "vector_search", none⟩
    | .error _ =>
      match tableRes with
      | .ok rows =>
        ⟨joinCtx (rows.map (·.content)), rows.length, some "fallback", none⟩
      | .error e2 => ⟨"", 0, none, some e2⟩

/-! ### Lemmas about the normaliser -/

theorem newline_not_mem_collapseWsAux (l : List Char) :
    ∀ b, '\n' ∉ collapseWsAux b l := by
  induction l with
  | nil => intro b; simp [collapseWsAux]
  | cons c cs ih =>
    intro b
    by_cases hws : isJsWs c
    · cases b with
      | true => simpa [collapseWsAux, hws] using ih true
      | false =>
        simp only [collapseWsAux, hws, if_true]
        intro hmem
        rcases List.mem_cons.mp hmem with h | h
        · exact absurd h.symm (by decide)
        · exact ih true h
    · simp only [collapseWsAux, hws, if_false, Bool.false_eq_true]
      intro hmem
      rcases List.mem_cons.mp hmem with h | h
      · subst h; exact hws (by decide)
      · exact ih false h

theorem newline_not_mem_collapseWs (l : List Char) : '\n' ∉ collapseWs l :=
  newline_not_mem_collapseWsAux l false

theorem collapseNlAux_eq_of_no_newline (l : List Char) (hl : '\n' ∉ l) :
    ∀ b, collapseNlAux b l = l := by
  induction l with
  | nil => intro b; rfl
  | cons c cs ih =>
    intro b
    have hc : ¬ (c = '\n') := fun h => hl (h ▸ List.mem_cons_self c cs)
    have hcs : '\n' ∉ cs := fun h => hl (List.mem_cons_of_mem c h)
    simp only [collapseNlAux, hc, if_false]
    rw [ih hcs]

theorem mem_jsTrim (l : List Char) {c : Char} (h : c ∈ jsTrim l) : c ∈ l := by
  unfold jsTrim at h
  rw [List.mem_reverse] at h
  have h1 := (List.dropWhile_sublist (l := (l.dropWhile (isJsWs ·)).reverse)
    (p := (isJsWs ·))).mem h
  rw [List.mem_reverse] at h1
  exact (List.dropWhile_sublist (l := l) (p := (isJsWs ·))).mem h1

theorem length_collapseWsAux_le (l : List Char) :
    ∀ b, (collapseWsAux b l).length ≤ l.length := by
  induction l with
  | nil => intro b; simp [collapseWsAux]
  | cons c cs ih =>
    intro b
    by_cases hws : isJsWs c
    · cases b with
      | true =>
        simp only [collapseWsAux, hws, if_true]
        exact le_trans (ih true) (Nat.le_succ _)
      | false =>
        simp only [collapseWsAux, hws, if_true, List.length_cons]
        exact Nat.succ_le_succ (ih true)
    · simp only [collapseWsAux, hws, if_false, Bool.false_eq_true, List.length_cons]
      exact Nat.succ_le_succ (ih false)

theorem length_collapseNlAux_le (l : List Char) :
    ∀ b, (collapseNlAux b l).length ≤ l.length := by
  induction l with
  | nil => intro b; simp [collapseNlAux]
  | cons c cs ih =>
    intro b
    by_cases hc : c = '\n'
    · cases b with
      | true =>
        simp only [collapseNlAux, hc, if_true]
        exact le_trans (ih true) (Nat.le_succ _)
      | false =>
        simp only [collapseNlAux, hc, if_true, List.length_cons]
        exact Nat.succ_le_succ (ih true)
    · simp only [collapseNlAux, hc, if_false, List.length_cons]
      exact Nat.succ_le_succ (ih false)

theorem length_jsTrim_le (l : List Char) : (jsTrim l).length ≤ l.length := by
  unfold jsTrim
  calc ((l.dropWhile (isJsWs ·)).reverse.dropWhile (isJsWs ·)).reverse.length
      = ((l.dropWhile (isJsWs ·)).reverse.dropWhile (isJsWs ·)).length :=
        List.length_reverse _
    _ ≤ (l.dropWhile (isJsWs ·)).reverse.length :=
        (List.dropWhile_sublist (isJsWs ·)).length_le
    _ = (l.dropWhile (isJsWs ·)).length := List.length_reverse _
    _ ≤ l.length := (List.dropWhile_sublist (isJsWs ·)).length_le

theorem length_normJs_le (l : List Char) : (normJs l).length ≤ l.length :=
  le_trans (length_jsTrim_le _)
    (le_trans (length_collapseNlAux_le _ false) (length_collapseWsAux_le _ false))

/-! ## Helper lemmas: insertion sort by similarity -/

theorem mem_insertDesc {x a : MatchOut} :
    ∀ {l : List MatchOut}, a ∈ insertDesc x l ↔ a = x ∨ a ∈ l := by
  intro l
  induction l with
  | nil => simp [insertDesc]
  | cons y ys ih =>
    by_cases h : y.similarity ≤ x.similarity
    · simp [insertDesc, h]
    · simp only [insertDesc, h, if_false, List.mem_cons, ih]
      tauto

theorem pairwise_insertDesc (x : MatchOut) :
    ∀ l : List MatchOut,
      l.Pairwise (fun a b => b.similarity ≤ a.similarity) →
      (insertDesc x l).Pairwise (fun a b => b.similarity ≤ a.similarity) := by
  intro l
  induction l with
  | nil => intro _; simp [insertDesc]
  | cons y ys ih =>
    intro h
    rw [List.pairwise_cons] at h
    by_cases hyx : y.similarity ≤ x.similarity
    · simp only [insertDesc, hyx, if_true]
      rw [List.pairwise_cons]
      refine ⟨?_, List.pairwise_cons.mpr h⟩
      intro z hz
      rcases List.mem_cons.mp hz with hz | hz
      · exact hz ▸ hyx
      · exact le_trans (h.1 z hz) hyx
    · simp only [insertDesc, hyx, if_false]
      rw [List.pairwise_cons]
      refine ⟨?_, ih h.2⟩
      intro z hz
      rcases mem_insertDesc.mp hz with hz | hz
      · exact hz ▸ le_of_lt (lt_of_not_le hyx)
      · exact h.1 z hz

theorem pairwise_sortBySimDesc :
    ∀ l : List MatchOut,
      (sortBySimDesc l).Pairwise (fun a b => b.similarity ≤ a.similarity) := by
  intro l
  induction l with
  | nil => simp [sortBySimDesc]
  | cons x xs ih => exact pairwise_insertDesc x _ ih

theorem mem_sortBySimDesc {a : MatchOut} :
    ∀ {l : List MatchOut}, a ∈ sortBySimDesc l ↔ a ∈ l := by
  intro l
  induction l with
  | nil => simp [sortBySimDesc]
  | cons x xs ih =>
    simp only [sortBySimDesc, mem_insertDesc, ih, List.mem_cons]

/-! ## Helper lemmas: embedding and save loops -/

theorem embLoop_eq (fs : List (Except String Vec)) :
    ∀ acc, embLoop fs acc = acc ++ fs.map embOutcome := by
  induction fs with
  | nil => intro acc; simp [embLoop]
  | cons f fs ih =>
    intro acc
    simp only [embLoop, List.map_cons]
    rw [ih]
    simp

theorem saveLoop_mem_isSome (io : Nat → Bool) (pairs : List (String × Option Vec)) :
    ∀ i ins s, (∀ r ∈ ins, r.2.isSome = true) →
      ∀ r ∈ (saveLoop io pairs i ins s).1, r.2.isSome = true := by
  induction pairs with
  | nil => intro i ins s hins; simpa [saveLoop] using hins
  | cons p rest ih =>
    intro i ins s hins
    obtain ⟨c, emb⟩ := p
    match emb with
    | none => exact ih (i + 1) ins s hins
    | some v =>
      by_cases hio : io i
      · simp only [saveLoop, hio, if_true]
        refine ih (i + 1) _ (s + 1) ?_
        intro r hr
        rcases List.mem_append.mp hr with hr | hr
        · exact hins r hr
        · rcases List.mem_singleton.mp hr with rfl; rfl
      · simp only [saveLoop, hio, if_false, Bool.false_eq_true]
        exact ih (i + 1) ins s hins

theorem saveLoop_all_inserts_ok (io : Nat → Bool) (hio : ∀ j, io j = true)
    (pairs : List (String × Option Vec)) :
    ∀ i ins s, saveLoop io pairs i ins s
      = (ins ++ pairs.filter (fun p => p.2.isSome),
         s + (pairs.filter (fun p => p.2.isSome)).length) := by
  induction pairs with
  | nil => intro i ins s; simp [saveLoop]
  | cons p rest ih =>
    intro i ins s
    obtain ⟨c, emb⟩ := p
    match emb with
    | none =>
      simp only [saveLoop]
      rw [ih (i + 1) ins s]
      simp [List.filter]
    | some v =>
      simp only [saveLoop, hio i, if_true]
      rw [ih (i + 1) (ins ++ [(c, some v)]) (s + 1)]
      simp only [List.filter, Option.isSome_some, List.append_assoc,
        List.singleton_append, List.length_cons]
      rw [Prod.mk.injEq]
      exact ⟨rfl, by omega⟩

/-! ## Claim C1 -/

/-- **C1 counterexample.** With the query-embedding fetch, the similarity
RPC and the fallback table read all failing, the result object returned by
`retrieveContext` does **not** carry `source = "fallback"`: the thrown
embedding error lands in the outer `catch`, which returns
`{context: '', chunks: 0, error}` with no `source` field at all. -/
theorem retrieveContext_fallback_tag_counterexample :
    (retrieveContext (.error "GEMINI_API_KEY is required")
        (.error "rpc unavailable") (.error "select failed")).source
      ≠ some "fallback" := by
  decide

/-- **C1 (amended).** When the query-embedding step fails, or the
similarity RPC and the plain table read both fail, `retrieveContext` still
resolves (the model is a total function into `RagResult`, mirroring the
JavaScript function that catches every failure) and returns an empty
context, a zero chunk count and an error message — but **no** `source` tag;
in particular the tag is not `fallback`. -/
theorem retrieveContext_failure_resolves (embedRes : Except String Vec)
    (rpcRes : Except String (List MatchOut))
    (tableRes : Except String (List ChunkRowLite))
    (h : (∃ e, embedRes = Except.error e) ∨
      ((∃ e, rpcRes = Except.error e) ∧ (∃ e, tableRes = Except.error e))) :
    (retrieveContext embedRes rpcRes tableRes).context = ""
    ∧ (retrieveContext embedRes rpcRes tableRes).chunks = 0
    ∧ (retrieveContext embedRes rpcRes tableRes).source = none
    ∧ (retrieveContext embedRes rpcRes tableRes).error.isSome = true := by
  match embedRes with
  | .error e => exact ⟨rfl, rfl, rfl, rfl⟩
  | .ok v =>
    rcases h with ⟨e, he⟩ | ⟨⟨e1, he1⟩, ⟨e2, he2⟩⟩
    · exact absurd he (by simp)
    · subst he1; subst he2
      exact ⟨rfl, rfl, rfl, rfl⟩

/-- Witness for C1 (amended) at a concrete total-failure input. -/
theorem retrieveContext_failure_resolves_witness :
    (retrieveContext (.error "GEMINI_API_KEY is required")
        (.error "rpc unavailable") (.error "select failed")).context = ""
    ∧ (retrieveContext (.error "GEMINI_API_KEY is required")
        (.error "rpc unavailable") (.error "select failed")).chunks = 0
    ∧ (retrieveContext (.error "GEMINI_API_KEY is required")
        (.error "rpc unavailable") (.error "select failed")).source = none
    ∧ (retrieveContext (.error "GEMINI_API_KEY is required")
        (.error "rpc unavailable") (.error "select failed")).error.isSome = true :=
  retrieveContext_failure_resolves _ _ _
    (Or.inl ⟨"GEMINI_API_KEY is required", rfl⟩)

/-! ## Claim C10 -/

/-- **C10.** The fallback branch of `retrieveContext` reads the chunk table
without using the query: once the similarity RPC has failed, the result is
the same function of the (fixed) store read for **any** query embedding and
any RPC error — two distinct query strings give the identical fallback
context and chunk count. -/
theorem retrieveContext_fallback_query_independent (v₁ v₂ : Vec)
    (e₁ e₂ : String) (tableRes : Except String (List ChunkRowLite)) :
    retrieveContext (.ok v₁) (.error e₁) tableRes
      = retrieveContext (.ok v₂) (.error e₂) tableRes := rfl

/-! ## Claim C9 -/

/-- **C9.** With no embedding credential configured, both embedding entry
points fail with a configuration error on the branch taken **before** the
fetch, so the outbound-call counter is `0` whatever the network would have
answered: the gemini client returns `{embedding: null, error}`, and the
retriever's `generateQueryEmbedding` throws `GEMINI_API_KEY is required`. -/
theorem noCredential_failsFast_zeroCalls (fetch : Except String (Option Vec))
    (fetch' : Except String Vec) :
    generateEmbedding none fetch = (⟨none, some "API key not configured"⟩, 0)
    ∧ generateQueryEmbedding none fetch' = (.error "GEMINI_API_KEY is required", 0) :=
  ⟨rfl, rfl⟩

/-! ## Claim C5 -/

/-- **C5.** Both batch-embedding implementations are order- and
length-preserving maps over the per-item fetch outcomes: the result sequence
has the same length as the input, and the entry at any position `i` is a
function of the outcome at position `i` alone — so one item's failure cannot
change any other item's result.  `generateEmbeddingsBatch` is the gemini
client's `Promise.all` batch, `generateEmbeddingsDoc` the document
processor's sequential loop. -/
theorem embedBatch_preserves_order_and_isolates_failures (k : String)
    (fetches₃ : List (Except String (Option Vec)))
    (fetches₁ : List (Except String Vec)) :
    ((generateEmbeddingsBatch (some k) fetches₃).embeddings.length = fetches₃.length
      ∧ ∀ i, (generateEmbeddingsBatch (some k) fetches₃).embeddings.get? i
          = (fetches₃.get? i).map
              (fun f => ((generateEmbedding (some k) f).1).embedding))
    ∧ (generateEmbeddingsDoc (some k) fetches₁ = .ok (fetches₁.map embOutcome)
      ∧ ∀ i, (fetches₁.map embOutcome).get? i = (fetches₁.get? i).map embOutcome) := by
  refine ⟨⟨?_, ?_⟩, ?_, ?_⟩
  · simp [generateEmbeddingsBatch]
  · intro i
    simp [generateEmbeddingsBatch, List.get?_map]
  · show Except.ok (embLoop fetches₁ []) = _
    rw [embLoop_eq fetches₁ []]
    simp
  · intro i
    simp [List.get?_map]

/-! ## Claim C4 -/

/-- **C4.** For any cosine-distance operation, table contents, query
embedding, threshold and limit, `match_documents` returns only rows whose
similarity (`1 - distance`, line 49 of the migration) is strictly greater
than the threshold (the `WHERE` of line 51), at most `limit` rows (the
`LIMIT` of line 53), ordered by similarity descending (the `ORDER BY
distance` of line 52). -/
theorem matchDocuments_threshold_limit_sorted (dist : Vec → Vec → ℚ)
    (rows : List DbRow) (q : Vec) (threshold : ℚ) (lim : Nat) :
    (∀ r ∈ matchDocuments dist rows q threshold lim, threshold < r.similarity)
    ∧ (matchDocuments dist rows q threshold lim).length ≤ lim
    ∧ (matchDocuments dist rows q threshold lim).Pairwise
        (fun a b => b.similarity ≤ a.similarity) := by
  refine ⟨?_, ?_, ?_⟩
  · intro r hr
    have hr1 : r ∈ sortBySimDesc (rows.filterMap _) := List.mem_of_mem_take hr
    have hr2 := mem_sortBySimDesc.mp hr1
    rw [List.mem_filterMap] at hr2
    obtain ⟨a, _, ha⟩ := hr2
    revert ha
    match a.embedding with
    | none => intro ha; exact absurd ha (by simp)
    | some v =>
      intro ha
      by_cases hth : threshold < 1 - dist v q
      · simp only [hth, if_true, Option.some.injEq] at ha
        rw [← ha]
        exact hth
      · simp [hth] at ha
  · exact List.length_take_le _ _
  · exact (pairwise_sortBySimDesc _).sublist (List.take_sublist _ _) |>.imp id

/-! ## Claim C3 -/

/-- One iteration of the sliding-window loop on `"aaa"` with
`chunkSize = overlap = 2`: `end` stays at `2`, the chunk `"aa"` is pushed,
and `start = end - overlap` returns to `0`. -/
theorem chunkLoop_aaa_step (n : Nat) (acc : List (List Char)) :
    chunkLoop ['a', 'a', 'a'] 2 2 (n + 1) 0 acc
      = chunkLoop ['a', 'a', 'a'] 2 2 n 0 (acc ++ [['a', 'a']]) := rfl

theorem chunkLoop_aaa_none :
    ∀ (n : Nat) (acc : List (List Char)),
      chunkLoop ['a', 'a', 'a'] 2 2 n 0 acc = none := by
  intro n
  induction n with
  | zero => intro acc; rfl
  | succ n ih =>
    intro acc
    rw [chunkLoop_aaa_step]
    exact ih _

/-- **C3.** `splitIntoChunks` contains no `overlap >= targetSize` guard: on
the input `"aaa"` with `chunkSize = 2`, `overlap = 2` the `while` loop never
makes progress (`start` returns to `0` on every iteration), so for **every**
fuel bound the fuel-limited embedding reports an unfinished loop (`none`) —
the JavaScript original loops forever instead of raising a configuration
error before chunking. -/
theorem splitIntoChunks_overlap_eq_size_diverges :
    ∀ fuel : Nat, splitIntoChunksFuel fuel "aaa" 2 2 = none := by
  intro fuel
  have h : splitIntoChunksFuel fuel "aaa" 2 2
      = (chunkLoop ['a', 'a', 'a'] 2 2 fuel 0 []).map (fun l => l.map String.mk) :=
    rfl
  rw [h, chunkLoop_aaa_none fuel []]
  rfl

/-! ## Claim C6 -/

/-- **C6 counterexample.** Empty input does **not** give an empty chunk
sequence: the cleaned text `""` satisfies `cleanText.length <= chunkSize`,
so the code returns the one-element array `[""]`.  And for input `"a  b"`
(length 4 ≤ 900) the single chunk is the whitespace-collapsed `"a b"`, not
the merely-trimmed input `"a  b"`. -/
theorem splitIntoChunks_short_input_counterexample :
    splitIntoChunksFuel 0 "" 900 100 ≠ some []
    ∧ splitIntoChunksFuel 0 "a  b" 900 100 ≠ some ["a  b"]
    ∧ splitIntoChunksFuel 0 "" 900 100 = some [""]
    ∧ splitIntoChunksFuel 0 "a  b" 900 100 = some ["a b"] := by
  refine ⟨?_, ?_, by decide, by decide⟩ <;> decide

/-- **C6 (amended).** For every text whose length is at most `targetSize`
(in particular the empty text), `splitIntoChunks` returns exactly one chunk,
whose content is the **normalised** input — whitespace runs collapsed and
trimmed; for empty input this one chunk is the empty string, not an empty
sequence.  (Cleaning never lengthens the text, so the short-circuit branch
is taken.) -/
theorem splitIntoChunks_short_input (fuel : Nat) (text : String) (cs ov : Int)
    (h : (text.length : Int) ≤ cs) :
    splitIntoChunksFuel fuel text cs ov = some [normJsStr text] := by
  have hlen : ((normJs text.toList).length : Int) ≤ cs := by
    refine le_trans ?_ h
    have := length_normJs_le text.toList
    exact_mod_cast this
  simp only [splitIntoChunksFuel, hlen, if_pos]
  rfl

/-- Witness for C6 (amended): `"a  b"` fits in one 900-character chunk and
comes back collapsed to `"a b"`. -/
theorem splitIntoChunks_short_input_witness :
    splitIntoChunksFuel 0 "a  b" 900 100 = some ["a b"] :=
  (splitIntoChunks_short_input 0 "a  b" 900 100 (by decide)).trans (by decide)

/-! ## Claim C7 -/

/-- **C7.** The paragraph-aggregating chunker computes offsets by
first-occurrence `indexOf` on the raw text; when the accumulated buffer
(overlap words + space + next paragraph) does not occur verbatim in the
text, `indexOf` returns `-1` and the emitted chunk carries
`charStart = -1 < 0` (and `charEnd = -1 + length`).  Concretely, for
`chunkDocument("ab cd\n\nefgh", {chunkSize: 8, overlap: 5})` the second
chunk is `"cd efgh"` with `charStart = -1`, violating
`0 ≤ charStart ≤ charEnd ≤ len(text)`. -/
theorem chunkDocument_negative_offset :
    chunkDocument "ab cd\n\nefgh" 8 5 "\n\n"
      = [⟨0, "ab cd", 0, 5⟩, ⟨1, "cd efgh", -1, 6⟩]
    ∧ ∃ c ∈ chunkDocument "ab cd\n\nefgh" 8 5 "\n\n", c.charStart < 0 := by
  refine ⟨by decide, ⟨⟨1, "cd efgh", -1, 6⟩, by decide, by decide⟩⟩

/-! ## Claim C8 -/

/-- **C8 counterexample.** A newline in the input is **not** preserved: the
first pass `replace(/\s+/g, ' ')` already replaces every newline with a
space, so `normalize("a\nb") = "a b"`, not `"a\nb"`. -/
theorem normalize_newline_counterexample :
    normJsStr "a\nb" = "a b" ∧ normJsStr "a\nb" ≠ "a\nb" := by
  refine ⟨by decide, by decide⟩

/-- **C8 (amended).** The normaliser collapses each run of whitespace
characters — newlines included — to a single space and trims; the
newline-collapsing second pass is a no-op because the first pass leaves no
newline behind, so the output never contains a newline. -/
theorem normalize_collapses_all_whitespace (s : String) :
    normJsStr s = String.mk (jsTrim (collapseWs s.toList))
    ∧ '\n' ∉ (normJsStr s).toList := by
  have hid : collapseNl (collapseWs s.toList) = collapseWs s.toList :=
    collapseNlAux_eq_of_no_newline _ (newline_not_mem_collapseWs _) false
  constructor
  · show String.mk (jsTrim (collapseNl (collapseWs s.toList))) = _
    rw [hid]
  · show '\n' ∉ jsTrim (collapseNl (collapseWs s.toList))
    rw [hid]
    intro hmem
    exact newline_not_mem_collapseWs _ (mem_jsTrim _ hmem)

/-! ## Claim C2 -/

/-- **C2 counterexample.** `storeVectors` (src/unnamed/part_002) does *not*
drop chunks whose embedding failed: the gemini batch returns a `null` entry
for the failed item with a `null` top-level error, `storeVectors` builds a
row for every chunk with `embedding: embeddings[index]`, inserts them all,
and reports `count = 2` with success — the second row carries a `null`
embedding. -/
theorem storeVectors_inserts_null_embedding :
    storeVectors true 1 [⟨0, "alpha", 0, 5⟩, ⟨1, "beta", 7, 11⟩] (some "k")
        [.ok (some [(1 : ℚ)]), .error "boom"] true
      = ([⟨1, 0, "alpha", some [(1 : ℚ)], 0, 5⟩, ⟨1, 1, "beta", none, 7, 11⟩],
         ⟨true, some 2, none⟩)
    ∧ ∃ r ∈ (storeVectors true 1 [⟨0, "alpha", 0, 5⟩, ⟨1, "beta", 7, 11⟩] (some "k")
        [.ok (some [(1 : ℚ)]), .error "boom"] true).1, r.embedding = none := by
  refine ⟨by decide, ⟨⟨1, 1, "beta", none, 7, 11⟩, by decide, by decide⟩⟩

/-- A list loses length under `filter` as soon as one element fails the
predicate. -/
theorem length_filter_lt_of_exists {α : Type} (p : α → Bool) :
    ∀ l : List α, (∃ x ∈ l, p x = false) → (l.filter p).length < l.length := by
  intro l
  induction l with
  | nil => rintro ⟨x, hx, -⟩; cases hx
  | cons a as ih =>
    rintro ⟨x, hx, hpx⟩
    by_cases hpa : p a
    · rcases List.mem_cons.mp hx with rfl | hx
      · rw [hpa] at hpx; cases hpx
      · simp only [List.filter_cons, hpa, if_true, List.length_cons]
        exact Nat.succ_lt_succ (ih ⟨x, hx, hpx⟩)
    · simp only [List.filter_cons, hpa, if_false, List.length_cons]
      exact Nat.lt_succ_of_le (List.length_filter_le _ _)

/-- Every element of the right list of a same-length `zip` shows up as the
second component of some pair. -/
theorem exists_mem_zip_of_mem_right {α β : Type} :
    ∀ (cl : List α) (el : List β), cl.length = el.length →
      ∀ b ∈ el, ∃ a, (a, b) ∈ cl.zip el := by
  intro cl
  induction cl with
  | nil =>
    intro el hlen b hb
    cases el with
    | nil => cases hb
    | cons e es => cases hlen
  | cons c cs ih =>
    intro el hlen b hb
    cases el with
    | nil => cases hb
    | cons e es =>
      rcases List.mem_cons.mp hb with rfl | hb
      · exact ⟨c, List.mem_cons_self _ _⟩
      · obtain ⟨a, ha⟩ := ih es (Nat.succ.inj hlen) b hb
        exact ⟨a, List.mem_cons_of_mem _ ha⟩

/-- **C2 (amended).** In the document-processor pipeline
(src/unnamed/part_001): every row actually inserted by
`saveChunksToSupabase` carries a present embedding (failed chunks are
skipped before the insert); when all inserts succeed, `processDocument`
reports `success: true` with `chunks_created` equal to the number of chunks
whose embedding succeeded and `total_chunks` equal to the chunk count; and
`chunks_created < total_chunks` as soon as any per-chunk embedding fetch
failed.  (The `storeVectors` path of src/unnamed/part_002 violates the
original claim — see the counterexample.) -/
theorem processDocument_drops_failed_embeddings (fuel : Nat) (text : String)
    (k : String) (fetches : List (Except String Vec)) (io : Nat → Bool)
    (chunks : List String)
    (hlen : ¬ text.length < 10)
    (hchunks : splitIntoChunksFuel fuel text 900 100 = some chunks)
    (hf : fetches.length = chunks.length)
    (hio : ∀ j, io j = true) :
    (∀ r ∈ (saveChunksToSupabase chunks (fetches.map embOutcome) io).1,
        r.2.isSome = true)
    ∧ processDocument fuel text (some k) fetches io
        = ⟨true,
           ((chunks.zip (fetches.map embOutcome)).filter
             (fun p => p.2.isSome)).length,
           some chunks.length, none⟩
    ∧ ((∃ f ∈ fetches, embOutcome f = none) →
        ((chunks.zip (fetches.map embOutcome)).filter
          (fun p => p.2.isSome)).length < chunks.length) := by
  have hsave : saveChunksToSupabase chunks (fetches.map embOutcome) io
      = ((chunks.zip (fetches.map embOutcome)).filter (fun p => p.2.isSome),
         ((chunks.zip (fetches.map embOutcome)).filter (fun p => p.2.isSome)).length) := by
    show saveLoop io _ 0 [] 0 = _
    rw [saveLoop_all_inserts_ok io hio]
    simp
  have hziplen : (chunks.zip (fetches.map embOutcome)).length = chunks.length := by
    rw [List.length_zip, List.length_map, hf, Nat.min_self]
  refine ⟨?_, ?_, ?_⟩
  · exact saveLoop_mem_isSome io _ 0 [] 0 (by intro r hr; cases hr)
  · simp only [processDocument, hlen, if_false, hchunks, generateEmbeddingsDoc]
    rw [embLoop_eq fetches [], List.nil_append, hsave]
  · rintro ⟨f, hfmem, hfe⟩
    have hmemmap : embOutcome f ∈ fetches.map embOutcome := List.mem_map_of_mem _ hfmem
    rw [hfe] at hmemmap
    obtain ⟨a, ha⟩ := exists_mem_zip_of_mem_right chunks (fetches.map embOutcome)
      (by rw [List.length_map, hf]) none hmemmap
    have := length_filter_lt_of_exists (fun p => p.2.isSome)
      (chunks.zip (fetches.map embOutcome)) ⟨(a, none), ha, rfl⟩
    rwa [hziplen] at this

/-- Witness for C2 (amended): one chunk whose embedding fetch fails;
`processDocument` still succeeds, creates 0 of 1 chunks, and no row reaches
the insert. -/
theorem processDocument_drops_failed_embeddings_witness :
    (∀ r ∈ (saveChunksToSupabase ["aaaaaaaaaaab"]
        ([Except.error "boom"].map embOutcome) (fun _ => true)).1,
        r.2.isSome = true)
    ∧ processDocument 0 "aaaaaaaaaaab" (some "k")
        [Except.error "boom"] (fun _ => true)
        = ⟨true,
           ((["aaaaaaaaaaab"].zip ([Except.error "boom"].map embOutcome)).filter
             (fun p => p.2.isSome)).length,
           some (["aaaaaaaaaaab"] : List String).length, none⟩
    ∧ ((∃ f ∈ [(Except.error "boom" : Except String Vec)], embOutcome f = none) →
        ((["aaaaaaaaaaab"].zip ([Except.error "boom"].map embOutcome)).filter
          (fun p => p.2.isSome)).length
          < (["aaaaaaaaaaab"] : List String).length) :=
  processDocument_drops_failed_embeddings 0 "aaaaaaaaaaab" "k"
    [Except.error "boom"] (fun _ => true) ["aaaaaaaaaaab"]
    (by decide) (by decide) (by decide) (fun _ => rfl)
